import Mathlib

/-!
Shallow embedding of `pos_list.py` (Stage_Control_MicroManager).

The source program builds a Micro-Manager `.pos` position-list file:
`create_pairs` combines two coordinate axes into an ordered list of (x, y)
pairs under a traversal mode, `create_full_string` attaches optional Z
values (scalar broadcast, white/oscillating noise, or z-stack expansion)
and serializes everything between a fixed header and footer, and
`generate_pos_file` glues the two together after applying the
`compatibility_MDA` option.

Modelling conventions:
- Python floats are modelled as rationals (`ℚ`); `numpy.round(4)` is
  round-half-to-even on the 4th decimal, modelled exactly.
- `np.random.random(n)` is modelled by an explicit parameter
  `rand : ℕ → ℚ` giving the drawn value for each index;
  `random.shuffle` by an explicit function parameter `shuffle`.
- A Python exception is an `Except.error` carrying the message; the
  non-fatal `warnings.warn` call is modelled by a list of warning
  strings returned beside the output text.
- Python float repr is abstracted by `pyRepr := toString` on `ℚ`
  (deterministic and value-faithful; the exact digit rendering of the
  consumer grammar is explicitly left open by the program).
-/

namespace PosList

/-- Stand-in for Python string interpolation of a float value. -/
def pyRepr (q : ℚ) : String := toString q

/-- Template for one position block without Z, `str_ref` filled by
`str_ref.format(x, y, i)` (pos_list.py lines 53-96). -/
def str_ref (x y : ℚ) (i : ℕ) : String :=
  "        \x7b\n          \"DefaultXYStage\": \x7b\n            \"type\": \"STRING\",\n            \"scalar\": \"XY Stage\"\n          \x7d,\n          \"DefaultZStage\": \x7b\n            \"type\": \"STRING\",\n            \"scalar\": \"PIZStage\"\n          \x7d,\n          \"DevicePositions\": \x7b\n            \"type\": \"PROPERTY_MAP\",\n            \"array\": [\n              \x7b\n                \"Device\": \x7b\n                  \"type\": \"STRING\",\n                  \"scalar\": \"XY Stage\"\n                \x7d,\n                \"Position_um\": \x7b\n                  \"type\": \"DOUBLE\",\n                  \"array\": [\n                    " ++
  pyRepr x ++
  ",\n                    " ++
  pyRepr y ++
  "\n                  ]\n                \x7d\n              \x7d\n            ]\n          \x7d,\n          \"GridCol\": \x7b\n            \"type\": \"INTEGER\",\n            \"scalar\": 0\n          \x7d,\n          \"GridRow\": \x7b\n            \"type\": \"INTEGER\",\n            \"scalar\": 0\n          \x7d,\n          \"Label\": \x7b\n            \"type\": \"STRING\",\n            \"scalar\": \"Pos" ++
  toString i ++
  "\"\n          \x7d,\n          \"Properties\": \x7b\n            \"type\": \"PROPERTY_MAP\",\n            \"scalar\": \x7b\x7d\n          \x7d\n        \x7d"

/-- Template for one position block with Z, `str_ref_with_z` filled by
`str_ref_with_z.format(z, x, y, i)` (pos_list.py lines 99-154). -/
def str_ref_with_z (z x y : ℚ) (i : ℕ) : String :=
  "        \x7b\n          \"DefaultXYStage\": \x7b\n            \"type\": \"STRING\",\n            \"scalar\": \"XY Stage\"\n          \x7d,\n          \"DefaultZStage\": \x7b\n            \"type\": \"STRING\",\n            \"scalar\": \"PIZStage\"\n          \x7d,\n          \"DevicePositions\": \x7b\n            \"type\": \"PROPERTY_MAP\",\n            \"array\": [\n              \x7b\n                \"Device\": \x7b\n                  \"type\": \"STRING\",\n                  \"scalar\": \"PIZStage\"\n                \x7d,\n                \"Position_um\": \x7b\n                  \"type\": \"DOUBLE\",\n                  \"array\": [\n                    " ++
  pyRepr z ++
  "\n                  ]\n                \x7d\n              \x7d,\n              \x7b\n                \"Device\": \x7b\n                  \"type\": \"STRING\",\n                  \"scalar\": \"XY Stage\"\n                \x7d,\n                \"Position_um\": \x7b\n                  \"type\": \"DOUBLE\",\n                  \"array\": [\n                    " ++
  pyRepr x ++
  ",\n                    " ++
  pyRepr y ++
  "\n                  ]\n                \x7d\n              \x7d\n            ]\n          \x7d,\n          \"GridCol\": \x7b\n            \"type\": \"INTEGER\",\n            \"scalar\": 0\n          \x7d,\n          \"GridRow\": \x7b\n            \"type\": \"INTEGER\",\n            \"scalar\": 0\n          \x7d,\n          \"Label\": \x7b\n            \"type\": \"STRING\",\n            \"scalar\": \"Pos" ++
  toString i ++
  "\"\n          \x7d,\n          \"Properties\": \x7b\n            \"type\": \"PROPERTY_MAP\",\n            \"scalar\": \x7b\x7d\n          \x7d\n        \x7d"

/-- Fixed document header `str_main_1` (pos_list.py lines 161-170). -/
def str_main_1 : String :=
  "\x7b\n  \"encoding\": \"UTF-8\",\n  \"format\": \"Micro-Manager Property Map\",\n  \"major_version\": 2,\n  \"minor_version\": 0,\n  \"map\": \x7b\n    \"StagePositions\": \x7b\n      \"type\": \"PROPERTY_MAP\",\n      \"array\": [\n"

/-- Fixed document footer `str_main_2` (pos_list.py lines 173-177). -/
def str_main_2 : String :=
  "\n      ]\n    \x7d\n  \x7d\n\x7d"

/-- Snake-mode inner worker: the `direction` variable of the loop at
pos_list.py lines 216-226.  `direction = 1` sweeps `ys` forward and
flips to `-1`; otherwise it sweeps `ys` reversed and flips back to `1`. -/
def snakeAux (direction : ℤ) (xs ys : List ℚ) : List (ℚ × ℚ) :=
  match xs with
  | [] => []
  | x :: rest =>
    if direction = 1 then (ys.map (fun y => (x, y))) ++ snakeAux (-1) rest ys
    else (ys.reverse.map (fun y => (x, y))) ++ snakeAux 1 rest ys

/-- `create_pairs` (pos_list.py lines 184-237).  `random.shuffle` is
modelled by the explicit `shuffle` parameter, applied exactly where the
source shuffles (mode `"random"` only; the pairs are first built by the
`else` branch, i.e. in standard order). -/
def create_pairs (x_arr y_arr : List ℚ) (mode : String)
    (shuffle : List (ℚ × ℚ) → List (ℚ × ℚ)) : List (ℚ × ℚ) :=
  let pairs :=
    if mode = ("reversed") then y_arr.flatMap (fun y => x_arr.map (fun x => (x, y)))
    else if mode = ("snake") then snakeAux 1 x_arr y_arr
    else x_arr.flatMap (fun x => y_arr.map (fun y => (x, y)))
  if mode = ("random") then shuffle pairs else pairs

/-- `create_new_position_string` (pos_list.py lines 241-274): pick the
with-Z or without-Z template depending on `z is None`. -/
def create_new_position_string (pair : ℚ × ℚ) (i : ℕ) (z : Option ℚ) : String :=
  match z with
  | some zv => str_ref_with_z zv pair.1 pair.2 i
  | none => str_ref pair.1 pair.2 i

/-- The Z argument of `create_full_string`: Python passes either a scalar
number or a sequence of numbers (`None` is modelled as `Option.none`
around this type). -/
inductive ZVal where
  | scalar (c : ℚ)
  | arr (qs : List ℚ)
deriving DecidableEq

/-- Python truthiness of the non-`None` Z argument, as tested by `if z:`
(pos_list.py line 317): a scalar is truthy iff nonzero, a (Python list)
sequence is truthy iff non-empty. -/
def zvTruthy : ZVal → Bool
  | ZVal.scalar c => if c = 0 then false else true
  | ZVal.arr qs => if qs = [] then false else true

/-- Round-half-to-even to the nearest integer, the rounding used by
`numpy.ndarray.round`. -/
def np_round (x : ℚ) : ℤ :=
  if x - Int.floor x < mkRat 1 2 then Int.floor x
  else if mkRat 1 2 < x - Int.floor x then Int.floor x + 1
  else if Even (Int.floor x) then Int.floor x else Int.floor x + 1

/-- `z_arr.round(4)` applied to one entry (pos_list.py line 341). -/
def round4 (x : ℚ) : ℚ := mkRat (np_round (x * 10000)) 10000

/-- The white-noise adjacency pass of pos_list.py lines 329-334, one
step: `cur` is the already-final value `z_arr[k]`, the list holds the
entries from index `k+1` on.  Whenever the next entry is closer than
`0.0002` to `cur`, it is pushed `0.0002` away from `cur` (up if it was
above, down otherwise) before the walk continues from it. -/
def white_adjacent_fix_aux (cur : ℚ) : List ℚ → List ℚ
  | [] => [cur]
  | b :: rest =>
    if |cur - b| < mkRat 2 10000 then
      (if cur < b then cur :: white_adjacent_fix_aux (b + mkRat 2 10000) rest
       else cur :: white_adjacent_fix_aux (b - mkRat 2 10000) rest)
    else cur :: white_adjacent_fix_aux b rest

/-- The whole adjacency pass of pos_list.py lines 329-334 (the loop body
only ever rewrites `z_arr[k+1]`, so `z_arr[k]` is final when the loop
reaches index `k`). -/
def white_adjacent_fix : List ℚ → List ℚ
  | [] => []
  | a :: rest => white_adjacent_fix_aux a rest

/-- `np.zeros(len(positions)) + z` (pos_list.py line 320): numpy
broadcast of the Z value against the position count, with the
dimension-mismatch exception of line 322.  numpy accepts a scalar, an
array of matching length, or a length-1 array.  (numpy would also
accept any array when `n = 1`, broadcasting the other way; no claim
depends on that corner and the serialisation loop then only reads
index 0.) -/
def broadcast_z (n : ℕ) : ZVal → Except String (List ℚ)
  | ZVal.scalar c => Except.ok (List.replicate n c)
  | ZVal.arr qs =>
    if qs.length = n then Except.ok qs
    else if qs.length = 1 then Except.ok (List.replicate n (qs.getD 0 0))
    else Except.error ("z is of the wrong dimension. Did you try to create a z_stack? Try adding z_stack=True")

/-- The non-stack Z pipeline of pos_list.py lines 318-341: broadcast,
then add white noise (`(np.random.random(n)-0.5)*noise_width`, modelled
by `rand`) followed by the adjacency pass, or oscillating noise
(`(i % 2) * noise_width`), and finally round every entry to 4 decimal
places. -/
def compute_z_arr (n : ℕ) (zv : ZVal) (noise_width : ℚ) (noise_type : Option String)
    (rand : ℕ → ℚ) : Except String (List ℚ) :=
  (broadcast_z n zv).map (fun base =>
    let z_arr :=
      if noise_type = some ("white") then
        white_adjacent_fix ((List.range n).map (fun i => base.getD i 0 + (rand i - mkRat 1 2) * noise_width))
      else if noise_type = some ("oscil") then
        (List.range n).map (fun i => base.getD i 0 + ((i % 2 : ℕ) : ℚ) * noise_width)
      else base
    z_arr.map round4)

/-- One iteration of the serialisation loop at pos_list.py lines 344-350:
position `i` with its Z entry (`z_arr[i]`) or without Z. -/
def position_block (positions : List (ℚ × ℚ)) (z_arr : Option (List ℚ)) (i : ℕ) : String :=
  match z_arr with
  | some za => create_new_position_string (positions.getD i (0, 0)) i (some (za.getD i 0))
  | none => create_new_position_string (positions.getD i (0, 0)) i none

/-- The non-stack serialisation of pos_list.py lines 343-351: header,
the position blocks joined by `",\n"` (the loop adds the separator
after every block except the last), footer. -/
def nonstack_render (positions : List (ℚ × ℚ)) (z_arr : Option (List ℚ)) : String :=
  str_main_1 ++
    String.intercalate (",\n") ((List.range positions.length).map (position_block positions z_arr)) ++
    str_main_2

/-- The blocks emitted by the z-stack double loop of pos_list.py lines
360-364: outer loop over positions, inner loop over the Z array, index
`i * len(z) + j`. -/
def stack_blocks (positions : List (ℚ × ℚ)) (zs : List ℚ) : List String :=
  (List.range positions.length).flatMap (fun i =>
    (List.range zs.length).map (fun j =>
      create_new_position_string (positions.getD i (0, 0)) (i * zs.length + j) (some (zs.getD j 0))))

/-- The z-stack serialisation of pos_list.py lines 359-365 (the comma is
added after every block except the very last `(i, j)`, i.e. the blocks
are joined by `",\n"`). -/
def stack_render (positions : List (ℚ × ℚ)) (zs : List ℚ) : String :=
  str_main_1 ++ String.intercalate (",\n") (stack_blocks positions zs) ++ str_main_2

/-- Message of the `warnings.warn` call at pos_list.py line 357. -/
def noise_warning_msg : String :=
  "Warning : using noise with z_stack mode is prohibited. Noise will not be added."

/-- `create_full_string` (pos_list.py lines 278-367).  Returns the built
document together with the list of emitted warnings, or the raised
exception.  Faithfulness notes:
- line 317 tests Python truthiness (`if z:`), so a scalar `0` (or an
  empty list) skips the computation of `z_arr`;
- the loop at lines 344-350 tests `z is not None`, so for a non-`None`
  falsy `z` the first iteration reads the never-assigned local `z_arr`
  and Python raises `NameError` (no iteration happens when there are no
  positions);
- in the z-stack branch the guard at line 354 only checks `z is None`;
  a scalar then reaches `len(z)` (line 361) inside the first outer
  iteration and Python raises `TypeError` (again only if there is at
  least one position). -/
def create_full_string (positions : List (ℚ × ℚ)) (z : Option ZVal) (z_stack : Bool)
    (noise_width : ℚ) (noise_type : Option String) (rand : ℕ → ℚ) :
    Except String (String × List String) :=
  if z_stack = false then
    match z with
    | none => Except.ok (nonstack_render positions none, [])
    | some zv =>
      if zvTruthy zv then
        (compute_z_arr positions.length zv noise_width noise_type rand).map
          (fun z_arr => (nonstack_render positions (some z_arr), []))
      else
        if positions.length = 0 then Except.ok (nonstack_render positions none, [])
        else Except.error ("NameError: name z_arr is not defined")
  else
    match z with
    | none => Except.error ("to create a z_stack, a z array has to be given")
    | some zv =>
      let warns := if noise_width ≠ 0 ∨ ¬ (noise_type = none) then [noise_warning_msg] else []
      match zv with
      | ZVal.scalar _ =>
        if positions.length = 0 then Except.ok (str_main_1 ++ str_main_2, warns)
        else Except.error ("TypeError: object of type int has no len()")
      | ZVal.arr zs => Except.ok (stack_render positions zs, warns)

/-- The `compatibility_MDA` adjustment of pos_list.py lines 418-422:
when enabled, a missing noise type becomes `"oscil"`, and the noise
width is raised to at least `0.0002`. -/
def mda_params (noise_width : ℚ) (noise_type : Option String) (compatibility_MDA : Bool) :
    ℚ × Option String :=
  if compatibility_MDA then
    (if noise_width < mkRat 2 10000 then mkRat 2 10000 else noise_width,
     if noise_type = none then some ("oscil") else noise_type)
  else (noise_width, noise_type)

/-- `generate_pos_file` (pos_list.py lines 372-430) up to the final file
write (an external effect): build the pairs, apply `compatibility_MDA`,
and produce the full document. -/
def generate_pos_file (x_arr y_arr : List ℚ) (z : Option ZVal) (location : String)
    (z_stack : Bool) (noise_width : ℚ) (noise_type : Option String) (mode : String)
    (compatibility_MDA : Bool)
    (shuffle : List (ℚ × ℚ) → List (ℚ × ℚ)) (rand : ℕ → ℚ) :
    Except String (String × List String) :=
  let positions := create_pairs x_arr y_arr mode shuffle
  let p := mda_params noise_width noise_type compatibility_MDA
  create_full_string positions z z_stack p.1 p.2 rand

/-! ### Lemmas about `create_pairs` -/

/-- Interchange step: producing `f a` then `g a` for every `a` is a
permutation of all the `f a` first, then all the `g a`. -/
theorem flatMap_cons_perm {α β : Type} (l : List α) (f : α → β) (g : α → List β) :
    List.Perm (l.flatMap (fun a => f a :: g a)) (l.map f ++ l.flatMap g) := by
  induction l with
  | nil => simp
  | cons a t ih =>
    simp only [List.flatMap_cons, List.map_cons, List.cons_append]
    refine List.Perm.cons (f a) ?_
    refine List.Perm.trans (List.Perm.append_left (g a) ih) ?_
    refine List.Perm.trans (List.perm_append_comm) ?_
    simp only [List.append_assoc]
    exact List.Perm.append_left _ List.perm_append_comm

/-- The reversed-mode enumeration is a permutation of the standard one. -/
theorem rev_pairs_perm (x y : List ℚ) :
    List.Perm (y.flatMap (fun b => x.map (fun a => (a, b))))
      (x.flatMap (fun a => y.map (fun b => (a, b)))) := by
  induction y with
  | nil => simp
  | cons b yt ih =>
    simp only [List.flatMap_cons, List.map_cons]
    refine List.Perm.trans (List.Perm.append_left _ ih)
      (List.Perm.symm ?_)
    exact flatMap_cons_perm x (fun a => (a, b)) (fun a => yt.map (fun c => (a, c)))

/-- Snake mode is a permutation of the standard enumeration, whatever the
current direction. -/
theorem snakeAux_perm (x y : List ℚ) : ∀ d : ℤ,
    List.Perm (snakeAux d x y) (x.flatMap (fun a => y.map (fun b => (a, b)))) := by
  induction x with
  | nil => intro d; simp [snakeAux]
  | cons a t ih =>
    intro d
    simp only [snakeAux, List.flatMap_cons]
    split
    · exact List.Perm.append_left _ (ih (-1))
    · exact List.Perm.append
        (List.Perm.map _ (List.reverse_perm y)) (ih 1)

/-- Length of the standard Cartesian enumeration. -/
theorem length_std_pairs {α β : Type} (x : List α) (y : List β) :
    (x.flatMap (fun a => y.map (fun b => (a, b)))).length = x.length * y.length := by
  induction x with
  | nil => simp
  | cons a t ih => simp [List.flatMap_cons, ih, Nat.succ_mul, Nat.add_comm]

/-- Claim C1: for non-empty axes and any of the four modes,
`create_pairs` returns exactly `n * m` pairs and, as a multiset, exactly
the Cartesian product of the two axes (each combination once); the
shuffle used by `"random"` mode may be any permutation. -/
theorem create_pairs_cartesian (x_arr y_arr : List ℚ) (mode : String)
    (shuffle : List (ℚ × ℚ) → List (ℚ × ℚ))
    (hx : x_arr ≠ []) (hy : y_arr ≠ [])
    (hm : mode = ("standard") ∨ mode = ("reversed") ∨ mode = ("snake") ∨ mode = ("random"))
    (hsh : ∀ l, List.Perm (shuffle l) l) :
    (create_pairs x_arr y_arr mode shuffle).length = x_arr.length * y_arr.length ∧
    List.Perm (create_pairs x_arr y_arr mode shuffle)
      (x_arr.flatMap (fun a => y_arr.map (fun b => (a, b)))) := by
  have key : List.Perm (create_pairs x_arr y_arr mode shuffle)
      (x_arr.flatMap (fun a => y_arr.map (fun b => (a, b)))) := by
    rcases hm with h | h | h | h <;> subst h <;> simp +decide only [create_pairs, if_true, if_false]
    · exact List.Perm.refl _
    · exact rev_pairs_perm x_arr y_arr
    · exact snakeAux_perm x_arr y_arr 1
    · exact List.Perm.trans (hsh _) (List.Perm.refl _)
  exact ⟨by rw [key.length_eq, length_std_pairs], key⟩

/-- Witness for C1 at a concrete input. -/
theorem create_pairs_cartesian_witness :
    (create_pairs [1, 2] [10, 20] ("standard") id).length = 2 * 2 ∧
    List.Perm (create_pairs [1, 2] [10, 20] ("standard") id)
      ([1, 2].flatMap (fun a => [10, 20].map (fun b => ((a : ℚ), (b : ℚ))))) :=
  create_pairs_cartesian [1, 2] [10, 20] ("standard") id (by decide) (by decide)
    (Or.inl rfl) (fun l => List.Perm.refl l)

/-- Dropping past a prefix of known length. -/
theorem drop_append_len {α : Type} (l₁ l₂ : List α) (m n : ℕ) (hm : l₁.length = m) :
    (l₁ ++ l₂).drop (m + n) = l₂.drop n := by
  subst hm
  rw [← List.drop_drop, List.drop_left]

/-- The `k`-th y-sweep of the snake enumeration, for an arbitrary current
direction `d`: it is the forward sweep exactly when the parity of `k`
matches the direction. -/
theorem snakeAux_slice : ∀ (k : ℕ) (xs : List ℚ) (d : ℤ) (ys : List ℚ), k < xs.length →
    ((snakeAux d xs ys).drop (k * ys.length)).take ys.length
      = (if (k % 2 = 0) ↔ (d = 1) then ys else ys.reverse).map (fun v => (xs.getD k 0, v)) := by
  intro k
  induction k with
  | zero =>
    intro xs d ys h
    match xs, h with
    | x :: rest, _ =>
      by_cases hd : d = 1
      · subst hd
        simp only [snakeAux, eq_self_iff_true, if_true, Nat.zero_mul, List.drop_zero,
          List.getD_cons_zero]
        rw [show ys.length = (ys.map (fun v => (x, v))).length from (List.length_map _ _).symm,
          List.take_left]
      · simp only [snakeAux, if_neg hd, Nat.zero_mul, List.drop_zero, List.getD_cons_zero]
        rw [show ys.length = (ys.reverse.map (fun v => (x, v))).length from (by simp),
          List.take_left, if_neg (show ¬(True ↔ d = 1) from by simp [hd])]
  | succ k ih =>
    intro xs d ys h
    match xs, h with
    | x :: rest, h =>
      have hk : k < rest.length := by
        have h2 := h
        simp only [List.length_cons] at h2
        omega
      by_cases hd : d = 1
      · subst hd
        simp only [snakeAux, eq_self_iff_true, if_true]
        rw [Nat.succ_mul, Nat.add_comm (k * ys.length) ys.length,
          drop_append_len _ _ ys.length (k * ys.length) (by simp), ih rest (-1) ys hk]
        by_cases hk2 : k % 2 = 0
        · have h2 : (k + 1) % 2 = 1 := by omega
          rw [if_neg (by simp [hk2]), if_neg (by simp [h2])]
          simp
        · have h2 : (k + 1) % 2 = 0 := by omega
          rw [if_pos (by simp [hk2]), if_pos (by simp [h2])]
          simp
      · simp only [snakeAux, if_neg hd]
        rw [Nat.succ_mul, Nat.add_comm (k * ys.length) ys.length,
          drop_append_len _ _ ys.length (k * ys.length) (by simp), ih rest 1 ys hk]
        by_cases hk2 : k % 2 = 0
        · have h2 : (k + 1) % 2 = 1 := by omega
          rw [if_pos (by simp [hk2]), if_pos (by simp [h2, hd])]
          simp
        · have h2 : (k + 1) % 2 = 0 := by omega
          rw [if_neg (by simp [hk2]), if_neg (by simp [h2, hd])]
          simp

/-- Claim C2: in snake mode the y-sweep belonging to the `k`-th x value
runs over `y_arr` forward when `k` is even and reversed when `k` is odd,
for every `k` (in particular for arbitrarily many x-steps). -/
theorem snake_alternates (x_arr y_arr : List ℚ)
    (shuffle : List (ℚ × ℚ) → List (ℚ × ℚ)) (k : ℕ) (hk : k < x_arr.length) :
    ((create_pairs x_arr y_arr ("snake") shuffle).drop (k * y_arr.length)).take y_arr.length
      = (if k % 2 = 0 then y_arr else y_arr.reverse).map (fun v => (x_arr.getD k 0, v)) := by
  have e : create_pairs x_arr y_arr ("snake") shuffle = snakeAux 1 x_arr y_arr := by
    simp +decide only [create_pairs, if_true, if_false]
  rw [e, snakeAux_slice k x_arr 1 y_arr hk]
  by_cases hk2 : k % 2 = 0
  · rw [if_pos (by simp [hk2]), if_pos hk2]
  · rw [if_neg (by simp [hk2]), if_neg hk2]

/-- Witness for C2: four x-steps, checking the fourth (odd) sweep. -/
theorem snake_alternates_witness :
    ((create_pairs [1, 2, 3, 4] [10, 20] ("snake") id).drop (3 * 2)).take 2
      = (if 3 % 2 = 0 then [10, 20] else [(10 : ℚ), 20].reverse).map
          (fun v => (([1, 2, 3, 4] : List ℚ).getD 3 0, v)) :=
  snake_alternates [1, 2, 3, 4] [10, 20] id 3 (by decide)

/-! ### Lemmas about the z-stack serialisation -/

/-- One inner sweep of the z-stack loop, as an `enumFrom` segment. -/
theorem stack_row_enum (a : ℚ × ℚ) (zs : List ℚ) : ∀ base : ℕ,
    (List.range zs.length).map
        (fun j => create_new_position_string a (base + j) (some (zs.getD j 0)))
      = (List.enumFrom base (zs.map (fun c => (a, c)))).map
          (fun e => create_new_position_string e.2.1 e.1 (some e.2.2)) := by
  induction zs with
  | nil => intro base; simp
  | cons c zt ih =>
    intro base
    have harith : ∀ j : ℕ, base + (j + 1) = (base + 1) + j := by omega
    simp only [List.length_cons, List.range_succ_eq_map, List.map_cons, List.map_map,
      List.enumFrom, List.getD_cons_zero, Nat.add_zero]
    refine congrArg (fun l => _ :: l) ?_
    rw [← ih (base + 1)]
    refine List.map_congr_left ?_
    intro j hj
    simp [Function.comp, harith j]

/-- The z-stack double loop, shifted by an arbitrary index offset,
enumerates the Cartesian product of positions and Z values in order. -/
theorem stack_blocks_aux (zs : List ℚ) : ∀ (ps : List (ℚ × ℚ)) (base : ℕ),
    (List.range ps.length).flatMap (fun i =>
        (List.range zs.length).map (fun j =>
          create_new_position_string (ps.getD i (0, 0)) (base + i * zs.length + j)
            (some (zs.getD j 0))))
      = (List.enumFrom base (ps.flatMap (fun a => zs.map (fun c => (a, c))))).map
          (fun e => create_new_position_string e.2.1 e.1 (some e.2.2)) := by
  intro ps
  induction ps with
  | nil => intro base; simp
  | cons a pt ih =>
    intro base
    simp only [List.length_cons, List.range_succ_eq_map, List.flatMap_cons, List.flatMap_map,
      List.getD_cons_zero, Nat.mul_zero, Nat.zero_mul, Nat.add_zero]
    rw [List.enumFrom_append, List.map_append]
    refine congrArg₂ (fun l₁ l₂ => l₁ ++ l₂) ?_ ?_
    · rw [stack_row_enum a zs base]
    · rw [show (zs.map (fun c => (a, c))).length = zs.length from List.length_map _ _]
      rw [← ih (base + zs.length)]
      simp only [Nat.succ_eq_add_one, List.getD_cons_succ]
      ring_nf
      refine congrArg (List.flatMap (List.range pt.length)) (funext fun i => ?_)
      refine congrArg (fun g => List.map g (List.range zs.length)) (funext fun j => ?_)
      rw [show base + i * zs.length + zs.length + j = base + zs.length + i * zs.length + j from
        by ring]

/-- Claim C7: in z-stack mode with `p` positions and `q` Z values,
`create_full_string` succeeds and emits the blocks of the Cartesian
product grouped with the position as outer loop and Z as inner loop,
with indices exactly `0 .. p*q-1` assigned contiguously in output
order; in particular there are exactly `p*q` blocks. -/
theorem z_stack_layout (ps : List (ℚ × ℚ)) (zs : List ℚ) (rand : ℕ → ℚ) :
    create_full_string ps (some (ZVal.arr zs)) true 0 none rand
      = Except.ok (str_main_1 ++ String.intercalate (",
") (stack_blocks ps zs) ++ str_main_2, []) ∧
    stack_blocks ps zs
      = ((ps.flatMap (fun a => zs.map (fun c => (a, c)))).enum.map
          (fun e => create_new_position_string e.2.1 e.1 (some e.2.2))) ∧
    (stack_blocks ps zs).length = ps.length * zs.length := by
  have hb : stack_blocks ps zs
      = ((ps.flatMap (fun a => zs.map (fun c => (a, c)))).enum.map
          (fun e => create_new_position_string e.2.1 e.1 (some e.2.2))) := by
    have := stack_blocks_aux zs ps 0
    simp only [Nat.zero_add] at this
    rw [stack_blocks, this]
    rfl
  refine ⟨rfl, hb, ?_⟩
  rw [hb, List.length_map, List.enum_length, length_std_pairs]

/-- Claim C8: requesting noise in z-stack mode emits the advisory
warning, does not fail, and returns exactly the document produced
without any noise request. -/
theorem z_stack_noise_suppressed (ps : List (ℚ × ℚ)) (zs : List ℚ) (w : ℚ)
    (t : Option String) (rand : ℕ → ℚ) (h : w ≠ 0 ∨ t ≠ none) :
    create_full_string ps (some (ZVal.arr zs)) true w t rand
      = Except.ok (stack_render ps zs, [noise_warning_msg]) ∧
    create_full_string ps (some (ZVal.arr zs)) true 0 none rand
      = Except.ok (stack_render ps zs, []) := by
  constructor
  · simp only [create_full_string, if_pos h]
    rfl
  · rfl

/-- Witness for C8 at a concrete input. -/
theorem z_stack_noise_suppressed_witness :
    create_full_string [((0 : ℚ), (0 : ℚ))] (some (ZVal.arr [1])) true 1 none (fun _ => 0)
      = Except.ok (stack_render [((0 : ℚ), (0 : ℚ))] [1], [noise_warning_msg]) ∧
    create_full_string [((0 : ℚ), (0 : ℚ))] (some (ZVal.arr [1])) true 0 none (fun _ => 0)
      = Except.ok (stack_render [((0 : ℚ), (0 : ℚ))] [1], []) :=
  z_stack_noise_suppressed [((0 : ℚ), (0 : ℚ))] [1] 1 none (fun _ => 0)
    (Or.inl (by norm_num))

/-- Claim C10: the z-stack missing-Z guard only fires for `z = None`;
a scalar Z passes the guard and the call instead fails where `len(z)`
is evaluated on the scalar (whenever at least one position exists). -/
theorem z_stack_scalar_guard (ps : List (ℚ × ℚ)) (w : ℚ) (t : Option String)
    (rand : ℕ → ℚ) (c : ℚ) (hps : ps ≠ []) :
    create_full_string ps none true w t rand
      = Except.error ("to create a z_stack, a z array has to be given") ∧
    create_full_string ps (some (ZVal.scalar c)) true w t rand
      = Except.error ("TypeError: object of type int has no len()") := by
  have h0 : ¬(ps.length = 0) := fun h => hps (List.length_eq_zero.mp h)
  refine ⟨rfl, ?_⟩
  simp only [create_full_string, if_neg h0]
  rfl

/-- Witness for C10 at a concrete input. -/
theorem z_stack_scalar_guard_witness :
    create_full_string [((0 : ℚ), (0 : ℚ))] none true 0 none (fun _ => 0)
      = Except.error ("to create a z_stack, a z array has to be given") ∧
    create_full_string [((0 : ℚ), (0 : ℚ))] (some (ZVal.scalar 5)) true 0 none (fun _ => 0)
      = Except.error ("TypeError: object of type int has no len()") :=
  z_stack_scalar_guard [((0 : ℚ), (0 : ℚ))] 0 none (fun _ => 0) 5 (by simp)

/-- Claim C5 (code bug witness): with the scalar Z value `0` and a
non-empty position list in non-stack mode, `create_full_string` does
not attach a Z to every position as documented; the truthiness test
`if z:` skips the `z_arr` computation, and the serialisation loop then
reads the undefined local `z_arr`, so the call raises instead of
succeeding. -/
theorem scalar_zero_z_crash :
    create_full_string [((0 : ℚ), (0 : ℚ))] (some (ZVal.scalar 0)) false 0 none (fun _ => 0)
      = Except.error ("NameError: name z_arr is not defined") := by
  with_unfolding_all rfl

/-- Snake sweep of an empty y-axis is empty. -/
theorem snakeAux_ys_nil : ∀ (xs : List ℚ) (d : ℤ), snakeAux d xs [] = [] := by
  intro xs
  induction xs with
  | nil => intro d; rfl
  | cons a t ih =>
    intro d
    rw [snakeAux]
    split
    · simpa using ih (-1)
    · simpa using ih 1

/-- Claim C9: an empty axis yields an empty pair list in every mode, and
serialising zero positions (with no Z or a scalar Z) succeeds and yields
exactly the fixed header immediately followed by the fixed footer. -/
theorem empty_axis_degenerate (x_arr y_arr : List ℚ) (mode : String)
    (shuffle : List (ℚ × ℚ) → List (ℚ × ℚ)) (z : Option ZVal) (w : ℚ)
    (t : Option String) (rand : ℕ → ℚ)
    (hxy : x_arr = [] ∨ y_arr = []) (hsh : ∀ l, List.Perm (shuffle l) l)
    (hz : z = none ∨ ∃ c, z = some (ZVal.scalar c)) :
    create_pairs x_arr y_arr mode shuffle = [] ∧
    create_full_string [] z false w t rand = Except.ok (str_main_1 ++ str_main_2, []) := by
  constructor
  · have hpairs : (if mode = ("reversed") then
        y_arr.flatMap (fun y => x_arr.map (fun x => (x, y)))
      else if mode = ("snake") then snakeAux 1 x_arr y_arr
      else x_arr.flatMap (fun x => y_arr.map (fun y => (x, y)))) = [] := by
      rcases hxy with h | h <;> subst h <;> split_ifs <;>
        simp [snakeAux_ys_nil, snakeAux]
    rw [create_pairs, hpairs]
    split_ifs
    · exact (hsh []).eq_nil
    · rfl
  · have hrender : nonstack_render [] none = str_main_1 ++ str_main_2 := by
      simp [nonstack_render, String.intercalate]
    rcases hz with h | ⟨c, h⟩ <;> subst h
    · have e : create_full_string [] none false w t rand
          = Except.ok (nonstack_render [] none, []) := rfl
      rw [e, hrender]
    · by_cases hc : c = 0
      · subst hc
        have e : create_full_string [] (some (ZVal.scalar 0)) false w t rand
            = Except.ok (nonstack_render [] none, []) := rfl
        rw [e, hrender]
      · have htr : zvTruthy (ZVal.scalar c) = true := by simp [zvTruthy, hc]
        have e : create_full_string [] (some (ZVal.scalar c)) false w t rand
            = (compute_z_arr 0 (ZVal.scalar c) w t rand).map
                (fun z_arr => (nonstack_render [] (some z_arr), [])) := by
          simp only [create_full_string, htr, if_true, List.length_nil]
        rw [e]
        have hz0 : compute_z_arr 0 (ZVal.scalar c) w t rand = Except.ok [] := by
          by_cases ht1 : t = some ("white")
          · subst ht1; rfl
          · by_cases ht2 : t = some ("oscil")
            · subst ht2; rfl
            · simp only [compute_z_arr, broadcast_z, if_neg ht1, if_neg ht2]
              rfl
        rw [hz0]
        have hrender2 : nonstack_render [] (some []) = str_main_1 ++ str_main_2 := by
          simp [nonstack_render, String.intercalate]
        simp only [Except.map, hrender2]

/-- Witness for C9 at a concrete input. -/
theorem empty_axis_degenerate_witness :
    create_pairs [] [1] ("snake") id = [] ∧
    create_full_string [] none false 0 none (fun _ => 0)
      = Except.ok (str_main_1 ++ str_main_2, []) :=
  empty_axis_degenerate [] [1] ("snake") id none 0 none (fun _ => 0)
    (Or.inl rfl) (fun l => List.Perm.refl l) (Or.inl rfl)

/-! ### The `compatibility_MDA` option -/

/-- Amended C6: `generate_pos_file` builds the pairs and serialises them
with the `compatibility_MDA`-adjusted options: when the option is on,
a missing noise type is forced to `"oscil"` (only then), while the
noise width is raised to at least `0.0002` unconditionally — also when
an explicit noise type was supplied; when the option is off both pass
through unchanged. -/
theorem generate_pos_file_mda (x_arr y_arr : List ℚ) (z : Option ZVal) (location : String)
    (z_stack : Bool) (noise_width : ℚ) (noise_type : Option String) (mode : String)
    (compatibility_MDA : Bool) (shuffle : List (ℚ × ℚ) → List (ℚ × ℚ)) (rand : ℕ → ℚ) :
    generate_pos_file x_arr y_arr z location z_stack noise_width noise_type mode
        compatibility_MDA shuffle rand
      = create_full_string (create_pairs x_arr y_arr mode shuffle) z z_stack
          (if compatibility_MDA then max noise_width (mkRat 2 10000) else noise_width)
          (if compatibility_MDA ∧ noise_type = none then some ("oscil") else noise_type)
          rand := by
  rw [generate_pos_file, mda_params]
  by_cases hc : compatibility_MDA
  · subst hc
    simp only [if_true, true_and]
    have hmax : (if noise_width < mkRat 2 10000 then mkRat 2 10000 else noise_width)
        = max noise_width (mkRat 2 10000) := by
      rcases le_or_lt (mkRat 2 10000) noise_width with h | h
      · rw [if_neg (not_lt.mpr h), max_eq_left h]
      · rw [if_pos h, max_eq_right h.le]
    rw [hmax]
  · have hf : compatibility_MDA = false := by simpa using hc
    subst hf
    rfl

set_option maxRecDepth 10000 in
/-- Counterexample to C6 as stated: with `compatibility_MDA = true` and
an explicitly supplied noise type, the supplied noise width `0.0001` is
not passed through unchanged — the produced document differs from the
one obtained by passing the supplied options directly. -/
theorem generate_pos_file_mda_cex :
    (generate_pos_file [0] [0] (some (ZVal.scalar 1)) ("out") false (mkRat 1 10000)
        (some ("white")) ("standard") true id (fun _ => 1)).toOption
      ≠ (create_full_string (create_pairs [0] [0] ("standard") id) (some (ZVal.scalar 1)) false
          (mkRat 1 10000) (some ("white")) (fun _ => 1)).toOption :=
  of_decide_eq_true (by with_unfolding_all rfl)

/-! ### White-noise adjacency separation (C3) -/

/-- `np_round` is either the floor or the floor plus one. -/
theorem np_round_mem (x : ℚ) : np_round x = Int.floor x ∨ np_round x = Int.floor x + 1 := by
  rw [np_round]
  split_ifs <;> simp

/-- `np_round` never rounds down by more than a half. -/
theorem np_round_ge (x : ℚ) : x - 1/2 ≤ (np_round x : ℚ) := by
  have hfl : (Int.floor x : ℚ) ≤ x := Int.floor_le x
  have hfl2 : x < (Int.floor x : ℚ) + 1 := Int.lt_floor_add_one x
  have hhalf : (mkRat 1 2 : ℚ) = 1/2 := by rw [Rat.mkRat_eq_div]; norm_num
  rw [np_round]
  split_ifs with h1 h2 h3 <;> push_cast <;> rw [hhalf] at * <;> linarith

/-- `np_round` never rounds up by more than a half. -/
theorem np_round_le (x : ℚ) : (np_round x : ℚ) ≤ x + 1/2 := by
  have hfl : (Int.floor x : ℚ) ≤ x := Int.floor_le x
  have hhalf : (mkRat 1 2 : ℚ) = 1/2 := by rw [Rat.mkRat_eq_div]; norm_num
  rw [np_round]
  split_ifs with h1 h2 h3 <;> push_cast <;> rw [hhalf] at * <;> linarith

/-- When `np_round` rounds down by exactly a half, the result is even
(the half-to-even tie rule). -/
theorem np_round_tie_low (x : ℚ) (h : (np_round x : ℚ) = x - 1/2) : Even (np_round x) := by
  have hfl : (Int.floor x : ℚ) ≤ x := Int.floor_le x
  have hfl2 : x < (Int.floor x : ℚ) + 1 := Int.lt_floor_add_one x
  have hhalf : (mkRat 1 2 : ℚ) = 1/2 := by rw [Rat.mkRat_eq_div]; norm_num
  rw [np_round] at h ⊢
  split_ifs at h ⊢ with h1 h2 h3
  · rw [hhalf] at h1
    push_cast at h
    linarith
  · rw [hhalf] at h1 h2
    push_cast at h
    linarith
  · exact h3
  · rw [hhalf] at h1 h2
    push_cast at h
    linarith

/-- When `np_round` rounds up by exactly a half, the result is even. -/
theorem np_round_tie_high (x : ℚ) (h : (np_round x : ℚ) = x + 1/2) : Even (np_round x) := by
  have hfl : (Int.floor x : ℚ) ≤ x := Int.floor_le x
  have hfl2 : x < (Int.floor x : ℚ) + 1 := Int.lt_floor_add_one x
  have hhalf : (mkRat 1 2 : ℚ) = 1/2 := by rw [Rat.mkRat_eq_div]; norm_num
  rw [np_round] at h ⊢
  split_ifs at h ⊢ with h1 h2 h3
  · rw [hhalf] at h1
    push_cast at h
    linarith
  · rw [hhalf] at h1 h2
    push_cast at h
    linarith
  · rw [hhalf] at h1 h2
    push_cast at h
    linarith
  · refine Int.even_add_one.mpr ?_
    intro he
    exact h3 he

/-- Values two apart round to values two apart: the extremal case (one
tie rounding down, the other rounding up) would force two even results
one apart, which is impossible. -/
theorem np_round_sep (x y : ℚ) (h : y + 2 ≤ x) : np_round y + 2 ≤ np_round x := by
  have hyle := np_round_le y
  have hyge := np_round_ge y
  have hxle := np_round_le x
  have hxge := np_round_ge x
  have h1 : np_round y + 1 ≤ np_round x := by
    have : (np_round y : ℚ) + 1 ≤ np_round x := by linarith
    exact_mod_cast this
  rcases eq_or_lt_of_le h1 with heq | hlt
  · exfalso
    have heqq : (np_round y : ℚ) + 1 = np_round x := by exact_mod_cast heq
    have hx2 : x = y + 2 := by linarith
    have hrx : (np_round x : ℚ) = x - 1/2 := by linarith
    have hry : (np_round y : ℚ) = y + 1/2 := by linarith
    have hex := np_round_tie_low x hrx
    have hey := np_round_tie_high y hry
    rw [← heq] at hex
    exact (Int.even_add_one.mp hex) hey
  · omega

/-- Two reals at least `0.0002` apart in one direction stay `0.0002`
apart after rounding to 4 decimal places. -/
theorem round4_sep_le (a b : ℚ) (h : b + mkRat 2 10000 ≤ a) :
    round4 b + mkRat 2 10000 ≤ round4 a := by
  have hmk : (mkRat 2 10000 : ℚ) = 2/10000 := by rw [Rat.mkRat_eq_div]; norm_num
  rw [hmk] at h ⊢
  have hscale : b * 10000 + 2 ≤ a * 10000 := by linarith
  have hr := np_round_sep (a * 10000) (b * 10000) hscale
  have hrq : (np_round (b * 10000) : ℚ) + 2 ≤ np_round (a * 10000) := by exact_mod_cast hr
  rw [round4, round4, Rat.mkRat_eq_div, Rat.mkRat_eq_div]
  push_cast
  linarith

/-- Claim C3, rounding step: adjacent separation of at least `0.0002`
survives the rounding to 4 decimal places. -/
theorem round4_sep (a b : ℚ) (h : mkRat 2 10000 ≤ |a - b|) :
    mkRat 2 10000 ≤ |round4 a - round4 b| := by
  rcases le_or_lt b a with hab | hab
  · have habs : |a - b| = a - b := abs_of_nonneg (by linarith)
    rw [habs] at h
    have := round4_sep_le a b (by linarith)
    calc mkRat 2 10000 ≤ round4 a - round4 b := by linarith
      _ ≤ |round4 a - round4 b| := le_abs_self _
  · have habs : |a - b| = b - a := by rw [abs_sub_comm]; exact abs_of_nonneg (by linarith)
    rw [habs] at h
    have := round4_sep_le b a (by linarith)
    calc mkRat 2 10000 ≤ round4 b - round4 a := by linarith
      _ ≤ |round4 b - round4 a| := le_abs_self _
      _ = |round4 a - round4 b| := abs_sub_comm _ _

/-- The adjacency pass always puts the untouched current value in front. -/
theorem white_adjacent_fix_aux_head (l : List ℚ) (cur : ℚ) :
    ∃ t, white_adjacent_fix_aux cur l = cur :: t := by
  cases l with
  | nil => exact ⟨[], rfl⟩
  | cons b rest =>
    rw [white_adjacent_fix_aux]
    split_ifs <;> exact ⟨_, rfl⟩

/-- After the adjacency pass, adjacent entries are at least `0.0002`
apart. -/
theorem chain_white_adjacent_fix_aux (l : List ℚ) : ∀ cur : ℚ,
    List.Chain' (fun a b => mkRat 2 10000 ≤ |a - b|) (white_adjacent_fix_aux cur l) := by
  have hs : (0 : ℚ) < mkRat 2 10000 := by rw [Rat.mkRat_eq_div]; norm_num
  induction l with
  | nil =>
    intro cur
    simp [white_adjacent_fix_aux]
  | cons b rest ih =>
    intro cur
    rw [white_adjacent_fix_aux]
    split_ifs with h1 h2
    · obtain ⟨t, ht⟩ := white_adjacent_fix_aux_head rest (b + mkRat 2 10000)
      rw [ht, List.chain'_cons]
      refine ⟨?_, ht ▸ ih (b + mkRat 2 10000)⟩
      rw [abs_sub_comm, abs_of_pos (by linarith)]
      linarith [abs_nonneg (cur - b)]
    · obtain ⟨t, ht⟩ := white_adjacent_fix_aux_head rest (b - mkRat 2 10000)
      rw [ht, List.chain'_cons]
      refine ⟨?_, ht ▸ ih (b - mkRat 2 10000)⟩
      push_neg at h2
      rw [abs_of_pos (by linarith)]
      linarith
    · obtain ⟨t, ht⟩ := white_adjacent_fix_aux_head rest b
      rw [ht, List.chain'_cons]
      exact ⟨by push_neg at h1; exact h1, ht ▸ ih b⟩

/-- The full adjacency pass yields a `0.0002`-separated chain. -/
theorem chain_white_adjacent_fix (l : List ℚ) :
    List.Chain' (fun a b => mkRat 2 10000 ≤ |a - b|) (white_adjacent_fix l) := by
  cases l with
  | nil => simp [white_adjacent_fix]
  | cons a rest => exact chain_white_adjacent_fix_aux rest a

/-- The Z sequence produced in non-stack white-noise mode for a scalar
base `c`, width `w` and drawn noise `rand`: broadcast, add noise, run
the adjacency pass, round to 4 decimals. -/
def white_z_list (n : ℕ) (c w : ℚ) (rand : ℕ → ℚ) : List ℚ :=
  (white_adjacent_fix ((List.range n).map (fun i => c + (rand i - mkRat 1 2) * w))).map round4

/-- The non-stack Z pipeline in white mode computes `white_z_list`. -/
theorem compute_white_eq (n : ℕ) (c w : ℚ) (rand : ℕ → ℚ) :
    compute_z_arr n (ZVal.scalar c) w (some ("white")) rand
      = Except.ok (white_z_list n c w rand) := by
  have hmap : (List.range n).map
        (fun i => (List.replicate n c).getD i 0 + (rand i - mkRat 1 2) * w)
      = (List.range n).map (fun i => c + (rand i - mkRat 1 2) * w) := by
    refine List.map_congr_left ?_
    intro i hi
    rw [List.getD_eq_getElem?_getD, List.getElem?_replicate, if_pos (List.mem_range.mp hi)]
    rfl
  calc compute_z_arr n (ZVal.scalar c) w (some ("white")) rand
      = Except.ok ((white_adjacent_fix ((List.range n).map
          (fun i => (List.replicate n c).getD i 0 + (rand i - mkRat 1 2) * w))).map round4) :=
        rfl
    _ = Except.ok (white_z_list n c w rand) := by rw [white_z_list, hmap]

/-- Claim C3: in non-stack mode with a (truthy) scalar Z and white
noise, `create_full_string` serialises exactly the Z sequence
`white_z_list` (noise, adjacency fix, rounding), and in that sequence
no two adjacent Z values are closer than `0.0002` — for every position
list, base value, noise width and drawn noise vector. -/
theorem white_noise_separation (ps : List (ℚ × ℚ)) (c w : ℚ) (rand : ℕ → ℚ) (hc : c ≠ 0) :
    create_full_string ps (some (ZVal.scalar c)) false w (some ("white")) rand
      = Except.ok (nonstack_render ps (some (white_z_list ps.length c w rand)), []) ∧
    List.Chain' (fun a b => mkRat 2 10000 ≤ |a - b|) (white_z_list ps.length c w rand) := by
  constructor
  · have htr : zvTruthy (ZVal.scalar c) = true := by simp [zvTruthy, hc]
    have e : create_full_string ps (some (ZVal.scalar c)) false w (some ("white")) rand
        = (compute_z_arr ps.length (ZVal.scalar c) w (some ("white")) rand).map
            (fun z_arr => (nonstack_render ps (some z_arr), [])) := by
      simp only [create_full_string, htr, if_true]
    rw [e, compute_white_eq]
    rfl
  · rw [white_z_list]
    exact (List.chain'_map round4).mpr
      ((chain_white_adjacent_fix _).imp (fun a b hab => round4_sep a b hab))

/-- Witness for C3 at a concrete input. -/
theorem white_noise_separation_witness :
    create_full_string [((0 : ℚ), (0 : ℚ))] (some (ZVal.scalar 1)) false 0 (some ("white"))
        (fun _ => 0)
      = Except.ok (nonstack_render [((0 : ℚ), (0 : ℚ))]
          (some (white_z_list 1 1 0 (fun _ => 0))), []) ∧
    List.Chain' (fun a b => mkRat 2 10000 ≤ |a - b|) (white_z_list 1 1 0 (fun _ => 0)) :=
  white_noise_separation [((0 : ℚ), (0 : ℚ))] 1 0 (fun _ => 0) (by norm_num)

/-! ### Rounding scope (C4) -/

/-- Whatever Z shape and noise options are given, a successful run of
the non-stack Z pipeline ends with `z_arr.round(4)` (pos_list.py line
341), so the produced list is always a list of 4-decimal roundings. -/
theorem compute_z_arr_round (n : ℕ) (zv : ZVal) (w : ℚ) (t : Option String) (rand : ℕ → ℚ)
    (za : List ℚ) (h : compute_z_arr n zv w t rand = Except.ok za) :
    ∃ l : List ℚ, za = l.map round4 := by
  cases hb : broadcast_z n zv with
  | error e =>
    rw [compute_z_arr, hb] at h
    exact absurd h (by simp [Except.map])
  | ok base =>
    rw [compute_z_arr, hb] at h
    simp only [Except.map, Except.ok.injEq] at h
    exact ⟨_, h.symm⟩

/-- Amended C4: in non-stack mode, every invocation that attaches Z
values — the Z argument is truthy, whatever its shape (scalar or
array) and whatever the noise options — and succeeds serialises a Z
list in which every value is the 4-decimal rounding of some
pre-rounding value; in z-stack mode the given Z array is serialised
as supplied, without any rounding. -/
theorem rounding_scope (ps : List (ℚ × ℚ)) (zv : ZVal) (w : ℚ) (t : Option String)
    (rand : ℕ → ℚ) (zs : List ℚ) (s : String) (ws : List String)
    (htr : zvTruthy zv = true)
    (h : create_full_string ps (some zv) false w t rand = Except.ok (s, ws)) :
    (∃ l : List ℚ, s = nonstack_render ps (some (l.map round4)) ∧ ws = []) ∧
    create_full_string ps (some (ZVal.arr zs)) true 0 none rand
      = Except.ok (stack_render ps zs, []) := by
  refine ⟨?_, rfl⟩
  rw [show create_full_string ps (some zv) false w t rand
      = (compute_z_arr ps.length zv w t rand).map
          (fun z_arr => (nonstack_render ps (some z_arr), [])) from by
    simp only [create_full_string, htr, if_true]] at h
  cases hca : compute_z_arr ps.length zv w t rand with
  | error e =>
    rw [hca] at h
    exact absurd h (by simp [Except.map])
  | ok za =>
    rw [hca] at h
    simp only [Except.map, Except.ok.injEq, Prod.mk.injEq] at h
    obtain ⟨l, hl⟩ := compute_z_arr_round ps.length zv w t rand za hca
    exact ⟨l, by rw [← h.1, hl], h.2.symm⟩

/-- Witness for the amended C4 at a concrete input. -/
theorem rounding_scope_witness :
    (∃ l : List ℚ,
        nonstack_render [((0 : ℚ), (0 : ℚ))] (some (([(1 : ℚ)]).map round4))
          = nonstack_render [((0 : ℚ), (0 : ℚ))] (some (l.map round4)) ∧
        ([] : List String) = []) ∧
    create_full_string [((0 : ℚ), (0 : ℚ))] (some (ZVal.arr [1])) true 0 none (fun _ => 0)
      = Except.ok (stack_render [((0 : ℚ), (0 : ℚ))] [1], []) :=
  rounding_scope [((0 : ℚ), (0 : ℚ))] (ZVal.scalar 1) 0 none (fun _ => 0) [1]
    (nonstack_render [((0 : ℚ), (0 : ℚ))] (some (([(1 : ℚ)]).map round4))) []
    (by rfl) (by rfl)

set_option maxRecDepth 10000 in
/-- Counterexample to C4 as stated: in z-stack mode the Z value `1/3`
is serialised although it is not equal to its own 4-decimal rounding,
and the produced document differs from the one produced for the
rounded value — so z-stack Z values are not rounded before
serialisation. -/
theorem rounding_scope_cex :
    round4 (mkRat 1 3) ≠ mkRat 1 3 ∧
    (create_full_string [((0 : ℚ), (0 : ℚ))] (some (ZVal.arr [mkRat 1 3])) true 0 none
        (fun _ => 0)).toOption
      ≠ (create_full_string [((0 : ℚ), (0 : ℚ))] (some (ZVal.arr [round4 (mkRat 1 3)])) true 0
          none (fun _ => 0)).toOption :=
  of_decide_eq_true (by with_unfolding_all rfl)

end PosList
